import Mathlib

/-!
Shallow embedding of `convert_sprite.py` (the ArduGray sprite converter).

A decoded image is a row-major list of RGBA pixels with 8-bit channels,
together with its width `w` and height `h`.  The embedding below mirrors the
`get_shade`, `get_mask` and `convert` functions of the source line by line;
theorems about the packed output format follow.
-/

/-- One RGBA pixel; the four 8-bit channels of the decoded image. -/
structure RGBA where
  r : Nat
  g : Nat
  b : Nat
  a : Nat
deriving DecidableEq, Repr

/-- `get_shade` from the source: the brightness-plane bit of one pixel.
    `w = (254 + shades) // shades`, `b = (shade + 1) * w`, and the bit is
    set iff the red channel `rgba[0]` is at least `b`. -/
def get_shade (rgba : RGBA) (shades shade : Nat) : Nat :=
  let w := (254 + shades) / shades
  let b := (shade + 1) * w
  if b ≤ rgba.r then 1 else 0

/-- `get_mask` from the source: the opacity bit, set iff `rgba[3] >= 128`. -/
def get_mask (rgba : RGBA) : Nat :=
  if 128 ≤ rgba.a then 1 else 0

/-- The flat pixel index computed inside the packing loop of `convert`:
    `x = bx + ix`, `y = p*8 + iy`, then `y += by` and `i = y*w + x`. -/
def pixIndex (gw bx by_ y ix : Nat) : Nat :=
  (y + by_) * gw + (bx + ix)

/-- One iteration of the inner `iy` loop of `convert`: `y = p*8 + iy`; past
    `sh` the accumulator is left unchanged, otherwise bit `iy` of the
    brightness byte and of the mask byte is set from the pixel at
    `pixIndex`. -/
def packStep (pix : Nat → RGBA) (gw bx by_ sh p ix shades shade : Nat)
    (bm : Nat × Nat) (iy : Nat) : Nat × Nat :=
  let y := p * 8 + iy
  if sh ≤ y then bm
  else
    let rgba := pix (pixIndex gw bx by_ y ix)
    (bm.1 ||| (get_shade rgba shades shade <<< iy),
     bm.2 ||| (get_mask rgba <<< iy))

/-- The inner `iy` loop of `convert` for one column: packs up to 8 vertical
    pixels into one brightness byte and one mask byte.  The source leaves the
    loop with `break` at the first `iy` such that `p*8 + iy >= sh`; since
    `p*8 + iy` is strictly increasing in `iy`, skipping every such `iy`
    yields the same final pair as breaking at the first one. -/
def packPair (pix : Nat → RGBA) (gw bx by_ sh p ix shades shade : Nat) :
    Nat × Nat :=
  (List.range 8).foldl (packStep pix gw bx by_ sh p ix shades shade) (0, 0)

/-- The `ix` loop of `convert`: for each column, one brightness byte,
    immediately followed by the mask byte when `masked` is set. -/
def pageBytes (pix : Nat → RGBA) (gw bx by_ sh p shades shade sw : Nat)
    (masked : Bool) : List Nat :=
  (List.range sw).flatMap fun ix =>
    let bm := packPair pix gw bx by_ sh p ix shades shade
    if masked then [bm.1, bm.2] else [bm.1]

/-- The `shade` and `p` loops of `convert`: all bytes of one frame, shade
    planes outermost, then pages, then columns. -/
def frameBytes (pix : Nat → RGBA) (gw bx by_ sh sp shades sw : Nat)
    (masked : Bool) : List Nat :=
  (List.range (shades - 1)).flatMap fun shade =>
    (List.range sp).flatMap fun p =>
      pageBytes pix gw bx by_ sh p shades shade sw masked

/-- How `convert` can fail to return a byte stream: the two explicit
    `return None` paths of the source (each preceded by a printed message),
    and the two uncaught Python exceptions its remaining inputs can raise —
    `ZeroDivisionError` from `w // sw` or `h // sh` with a zero divisor, and
    `ValueError` from `bytearray([sw, sh])` with a value above 255. -/
inductive ConvertError where
  | invalidShadeCount
  | invalidSpriteDimensions
  | zeroDivisionError
  | headerOverflow
deriving DecidableEq, Repr

/-- `convert` from the source.  `pixels` is the row-major RGBA pixel list of
    the decoded image of width `w` and height `h`; `sw?`, `sh?`, `num?` are
    the optional frame width / frame height / frame count arguments (Python
    default `None`).  Pixel fetches are modelled totally via `List.getD`;
    this is exact whenever every computed index is in bounds, which the
    out-of-bounds theorem below establishes for the claimed invocations. -/
def convert (pixels : List RGBA) (w h shades : Nat)
    (sw? sh? num? : Option Nat) : Except ConvertError (List Nat) :=
  if ¬ (2 ≤ shades ∧ shades ≤ 4) then
    .error .invalidShadeCount
  else
    let masked : Bool := pixels.any fun i => i.a < 255
    let sw := sw?.getD w
    let sh := sh?.getD h
    if sw = 0 ∨ sh = 0 then
      .error .zeroDivisionError
    else
      let nw := w / sw
      let nh := h / sh
      let num := num?.getD (nw * nh)
      let sp := (sh + 7) / 8
      if nw * nh = 0 then
        .error .invalidSpriteDimensions
      else if 255 < sw ∨ 255 < sh then
        .error .headerOverflow
      else
        .ok ([sw, sh] ++ (List.range num).flatMap fun n =>
          frameBytes (fun i => pixels.getD i ⟨0, 0, 0, 0⟩) w
            ((n % nw) * sw) ((n / nw) * sh) sh sp shades sw masked)

/-- The per-column packer output of one page of one shade plane, kept as
    (brightness byte, mask byte) pairs before interleaving. -/
def pagePairs (pix : Nat → RGBA) (gw bx by_ sh p shades shade sw : Nat) :
    List (Nat × Nat) :=
  (List.range sw).map fun ix => packPair pix gw bx by_ sh p ix shades shade

/-- All packer pairs of one frame, shade planes outermost, then pages, then
    columns. -/
def framePairs (pix : Nat → RGBA) (gw bx by_ sh sp shades sw : Nat) :
    List (Nat × Nat) :=
  (List.range (shades - 1)).flatMap fun shade =>
    (List.range sp).flatMap fun p =>
      pagePairs pix gw bx by_ sh p shades shade sw

/-- All packer pairs of the whole stream, frames in row-major tile order. -/
def streamPairs (pix : Nat → RGBA) (gw sh sp shades sw nw num : Nat) :
    List (Nat × Nat) :=
  (List.range num).flatMap fun n =>
    framePairs pix gw ((n % nw) * sw) ((n / nw) * sh) sh sp shades sw

/-- The Frame Slicer as the spec words it (section 4.3): the ordered list of
    frame origins `(bx, by) = ((n % nw) * sw, (n / nw) * sh)` for
    `n` in `[0, num)`. -/
def sliceFramesSpec (nw sw sh num : Nat) : List (Nat × Nat) :=
  (List.range num).map fun n => ((n % nw) * sw, (n / nw) * sh)

/-- Congruence of binds over an initial segment of the naturals. -/
lemma flatMap_range_congr {α : Type} (n : Nat) (f g : Nat → List α)
    (h : ∀ i, i < n → f i = g i) :
    (List.range n).flatMap f = (List.range n).flatMap g := by
  induction n with
  | zero => rfl
  | succ m ih =>
    rw [List.range_succ, List.flatMap_append, List.flatMap_append,
      ih fun i hi => h i (Nat.lt_succ_of_lt hi)]
    simp [h m (Nat.lt_succ_self m)]

/-- Length of a bind over `List.range` whose blocks all have length `c`. -/
lemma flatMap_range_length_const {α : Type} (n c : Nat) (f : Nat → List α)
    (h : ∀ i, i < n → (f i).length = c) :
    ((List.range n).flatMap f).length = n * c := by
  induction n with
  | zero => simp
  | succ m ih =>
    rw [List.range_succ, List.flatMap_append, List.length_append,
      ih fun i hi => h i (Nat.lt_succ_of_lt hi)]
    simp [h m (Nat.lt_succ_self m), Nat.succ_mul]

/-- The quantizer bit is set exactly when the red channel reaches the
    threshold `(shade + 1) * ((254 + shades) / shades)`. -/
lemma get_shade_eq_one_iff (rgba : RGBA) (shades shade : Nat) :
    get_shade rgba shades shade = 1 ↔
      (shade + 1) * ((254 + shades) / shades) ≤ rgba.r := by
  simp only [get_shade]
  split <;> simp_all

/-- C1 counterexample: at brightness 127 with `shades = 2`, plane 0, the
    claimed threshold `(0+1) * ceil(254/2) = 127` predicts bit 1, but
    `get_shade` returns 0 (the code's stride is `(254+2)//2 = 128`). -/
theorem get_shade_c1_counterexample :
    ¬ (get_shade ⟨127, 127, 127, 255⟩ 2 0 = 1 ↔
        (0 + 1) * ((254 + 2 - 1) / 2) ≤ 127) := by
  decide

/-- C1 (amended): for every pixel, `shades ∈ {2,3,4}` and plane
    `p < shades - 1`, the quantizer bit is 1 iff the red channel is at least
    `(p+1) * ((254 + shades) / shades)` — the stride is the integer ceiling
    of `255 / shades`, not of `254 / shades`; concretely the thresholds are
    128 for shades 2; 85 and 170 for shades 3; 64, 128 and 192 for
    shades 4. -/
theorem get_shade_thresholds (rgba : RGBA) (shades p : Nat)
    (hs : 2 ≤ shades ∧ shades ≤ 4) (hp : p < shades - 1) :
    (get_shade rgba shades p = 1 ↔ (p + 1) * ((254 + shades) / shades) ≤ rgba.r)
    ∧ (254 + shades) / shades = (255 + (shades - 1)) / shades
    ∧ (shades = 2 → (get_shade rgba 2 0 = 1 ↔ 128 ≤ rgba.r))
    ∧ (shades = 3 →
        ((get_shade rgba 3 0 = 1 ↔ 85 ≤ rgba.r)
          ∧ (get_shade rgba 3 1 = 1 ↔ 170 ≤ rgba.r)))
    ∧ (shades = 4 →
        ((get_shade rgba 4 0 = 1 ↔ 64 ≤ rgba.r)
          ∧ (get_shade rgba 4 1 = 1 ↔ 128 ≤ rgba.r)
          ∧ (get_shade rgba 4 2 = 1 ↔ 192 ≤ rgba.r))) := by
  obtain ⟨hs2, hs4⟩ := hs
  refine ⟨get_shade_eq_one_iff rgba shades p, ?_, ?_, ?_, ?_⟩
  · have h : 255 + (shades - 1) = 254 + shades := by omega
    rw [h]
  · rintro rfl
    simpa using get_shade_eq_one_iff rgba 2 0
  · rintro rfl
    exact ⟨by simpa using get_shade_eq_one_iff rgba 3 0,
      by simpa using get_shade_eq_one_iff rgba 3 1⟩
  · rintro rfl
    exact ⟨by simpa using get_shade_eq_one_iff rgba 4 0,
      by simpa using get_shade_eq_one_iff rgba 4 1,
      by simpa using get_shade_eq_one_iff rgba 4 2⟩

/-- Witness for the amended C1 theorem at a concrete pixel. -/
theorem get_shade_thresholds_witness :
    get_shade ⟨200, 0, 0, 255⟩ 4 2 = 1 ↔
      (2 + 1) * ((254 + 4) / 4) ≤ (200 : Nat) :=
  (get_shade_thresholds ⟨200, 0, 0, 255⟩ 4 2 ⟨by decide, by decide⟩
    (by decide)).1

/-- C9: the shade-plane bits are monotone in the plane index: whenever
    `p < q < shades - 1` and the quantizer lights plane `q` for a pixel, it
    also lights plane `p` (thresholds strictly increase with the plane). -/
theorem get_shade_plane_monotone (rgba : RGBA) (shades p q : Nat)
    (_hs : 2 ≤ shades ∧ shades ≤ 4) (hpq : p < q) (_hq : q < shades - 1)
    (h1 : get_shade rgba shades q = 1) : get_shade rgba shades p = 1 := by
  rw [get_shade_eq_one_iff] at h1 ⊢
  have hmono : (p + 1) * ((254 + shades) / shades) ≤
      (q + 1) * ((254 + shades) / shades) :=
    Nat.mul_le_mul_right _ (by omega)
  exact le_trans hmono h1

/-- Witness for the plane-monotonicity theorem at a concrete pixel. -/
theorem get_shade_plane_monotone_witness :
    get_shade ⟨200, 0, 0, 255⟩ 4 0 = 1 :=
  get_shade_plane_monotone ⟨200, 0, 0, 255⟩ 4 0 2 ⟨by decide, by decide⟩
    (by decide) (by decide) (by decide)

/-- The quantizer bit is 0 or 1. -/
lemma get_shade_le_one (rgba : RGBA) (shades shade : Nat) :
    get_shade rgba shades shade ≤ 1 := by
  simp only [get_shade]
  split <;> simp

/-- The mask bit is 0 or 1. -/
lemma get_mask_le_one (rgba : RGBA) : get_mask rgba ≤ 1 := by
  simp only [get_mask]
  split <;> simp

/-- The quantizer reads only the red channel. -/
lemma get_shade_congr (x y : RGBA) (shades shade : Nat) (h : x.r = y.r) :
    get_shade x shades shade = get_shade y shades shade := by
  simp only [get_shade, h]

/-- The mask bit reads only the alpha channel. -/
lemma get_mask_congr (x y : RGBA) (h : x.a = y.a) :
    get_mask x = get_mask y := by
  simp only [get_mask, h]

/-- The packing fold only consults the red and alpha channels of the pixels
    at the indices `pixIndex gw bx by_ (p*8 + iy) ix` with `p*8 + iy < sh`. -/
lemma packStep_foldl_congr (pix₁ pix₂ : Nat → RGBA)
    (gw bx by_ sh p ix shades shade : Nat) :
    ∀ (l : List Nat) (bm : Nat × Nat),
      (∀ iy ∈ l, p * 8 + iy < sh →
        (pix₁ (pixIndex gw bx by_ (p * 8 + iy) ix)).r =
          (pix₂ (pixIndex gw bx by_ (p * 8 + iy) ix)).r ∧
        (pix₁ (pixIndex gw bx by_ (p * 8 + iy) ix)).a =
          (pix₂ (pixIndex gw bx by_ (p * 8 + iy) ix)).a) →
      l.foldl (packStep pix₁ gw bx by_ sh p ix shades shade) bm =
      l.foldl (packStep pix₂ gw bx by_ sh p ix shades shade) bm := by
  intro l
  induction l with
  | nil => intro bm _; rfl
  | cons a t ih =>
    intro bm h
    rw [List.foldl_cons, List.foldl_cons]
    have hstep : packStep pix₁ gw bx by_ sh p ix shades shade bm a =
        packStep pix₂ gw bx by_ sh p ix shades shade bm a := by
      simp only [packStep]
      split
      · rfl
      · rename_i hy
        obtain ⟨hr, ha⟩ := h a (List.mem_cons_self a t) (by omega)
        rw [get_shade_congr _ _ shades shade hr, get_mask_congr _ _ ha]
    rw [hstep]
    exact ih _ fun iy hiy hlt => h iy (List.mem_cons_of_mem a hiy) hlt

/-- `packPair` only consults the red and alpha channels of the pixels of its
    column that lie in rows `p*8 + iy < sh`. -/
lemma packPair_congr (pix₁ pix₂ : Nat → RGBA)
    (gw bx by_ sh p ix shades shade : Nat)
    (h : ∀ iy, iy < 8 → p * 8 + iy < sh →
      (pix₁ (pixIndex gw bx by_ (p * 8 + iy) ix)).r =
        (pix₂ (pixIndex gw bx by_ (p * 8 + iy) ix)).r ∧
      (pix₁ (pixIndex gw bx by_ (p * 8 + iy) ix)).a =
        (pix₂ (pixIndex gw bx by_ (p * 8 + iy) ix)).a) :
    packPair pix₁ gw bx by_ sh p ix shades shade =
    packPair pix₂ gw bx by_ sh p ix shades shade := by
  unfold packPair
  exact packStep_foldl_congr pix₁ pix₂ gw bx by_ sh p ix shades shade
    (List.range 8) (0, 0) fun iy hiy => h iy (List.mem_range.mp hiy)

/-- `pageBytes` only consults the red and alpha channels of the pixels of
    its page that lie in rows below `sh`. -/
lemma pageBytes_congr (pix₁ pix₂ : Nat → RGBA)
    (gw bx by_ sh p shades shade sw : Nat) (masked : Bool)
    (h : ∀ ix, ix < sw → ∀ y, y < sh →
      (pix₁ (pixIndex gw bx by_ y ix)).r = (pix₂ (pixIndex gw bx by_ y ix)).r ∧
      (pix₁ (pixIndex gw bx by_ y ix)).a = (pix₂ (pixIndex gw bx by_ y ix)).a) :
    pageBytes pix₁ gw bx by_ sh p shades shade sw masked =
    pageBytes pix₂ gw bx by_ sh p shades shade sw masked := by
  unfold pageBytes
  refine flatMap_range_congr sw _ _ fun ix hix => ?_
  rw [packPair_congr pix₁ pix₂ gw bx by_ sh p ix shades shade
    fun iy _ hlt => h ix hix (p * 8 + iy) hlt]

/-- `frameBytes` only consults the red and alpha channels of the pixels of
    its own tile: columns `bx + ix` with `ix < sw` and rows `by_ + y` with
    `y < sh`. -/
lemma frameBytes_congr (pix₁ pix₂ : Nat → RGBA)
    (gw bx by_ sh sp shades sw : Nat) (masked : Bool)
    (h : ∀ ix, ix < sw → ∀ y, y < sh →
      (pix₁ (pixIndex gw bx by_ y ix)).r = (pix₂ (pixIndex gw bx by_ y ix)).r ∧
      (pix₁ (pixIndex gw bx by_ y ix)).a = (pix₂ (pixIndex gw bx by_ y ix)).a) :
    frameBytes pix₁ gw bx by_ sh sp shades sw masked =
    frameBytes pix₂ gw bx by_ sh sp shades sw masked := by
  unfold frameBytes
  refine flatMap_range_congr _ _ _ fun shade _ => ?_
  refine flatMap_range_congr _ _ _ fun p _ => ?_
  exact pageBytes_congr pix₁ pix₂ gw bx by_ sh p shades shade sw masked h

/-- The packing fold keeps both accumulated bytes below `2 ^ k` as long as
    every row still inside the frame has its bit index below `k`. -/
lemma packStep_foldl_lt (pix : Nat → RGBA)
    (gw bx by_ sh p ix shades shade k : Nat) :
    ∀ (l : List Nat) (bm : Nat × Nat),
      (∀ iy ∈ l, p * 8 + iy < sh → iy < k) →
      bm.1 < 2 ^ k → bm.2 < 2 ^ k →
      (l.foldl (packStep pix gw bx by_ sh p ix shades shade) bm).1 < 2 ^ k ∧
      (l.foldl (packStep pix gw bx by_ sh p ix shades shade) bm).2 < 2 ^ k := by
  intro l
  induction l with
  | nil => intro bm _ h1 h2; exact ⟨h1, h2⟩
  | cons a t ih =>
    intro bm h h1 h2
    rw [List.foldl_cons]
    have hstep : (packStep pix gw bx by_ sh p ix shades shade bm a).1 < 2 ^ k ∧
        (packStep pix gw bx by_ sh p ix shades shade bm a).2 < 2 ^ k := by
      simp only [packStep]
      split
      · exact ⟨h1, h2⟩
      · rename_i hy
        have ha : a < k := h a (List.mem_cons_self a t) (by omega)
        have hpow : ∀ bit : Nat, bit ≤ 1 → bit <<< a < 2 ^ k := by
          intro bit hbit
          rw [Nat.shiftLeft_eq]
          calc bit * 2 ^ a ≤ 1 * 2 ^ a := Nat.mul_le_mul_right _ hbit
            _ = 2 ^ a := Nat.one_mul _
            _ < 2 ^ k := Nat.pow_lt_pow_right Nat.one_lt_two ha
        exact ⟨Nat.or_lt_two_pow h1 (hpow _ (get_shade_le_one _ _ _)),
          Nat.or_lt_two_pow h2 (hpow _ (get_mask_le_one _))⟩
    exact ih _ (fun iy hiy => h iy (List.mem_cons_of_mem a hiy)) hstep.1 hstep.2

/-- C3: when the frame height `sh` is not a multiple of 8, every byte the
    packer produces for the frame's last page `p = ceil(sh/8) - 1` —
    brightness and mask alike — is below `2 ^ (sh % 8)`, i.e. its top
    `ceil(sh/8)*8 - sh = 8 - sh % 8` bits are 0; moreover the page count is
    `sh / 8 + 1`, and the byte pair never reads a pixel with frame-relative
    row at or past `sh`: any two pixel sources that agree on the rows below
    `sh` of the column yield the same pair. -/
theorem packPair_last_page_truncation (pix : Nat → RGBA)
    (gw bx by_ sh p ix shades shade : Nat)
    (hsh : sh % 8 ≠ 0) (hp : p = (sh + 7) / 8 - 1) :
    (packPair pix gw bx by_ sh p ix shades shade).1 < 2 ^ (sh % 8) ∧
    (packPair pix gw bx by_ sh p ix shades shade).2 < 2 ^ (sh % 8) ∧
    ((sh + 7) / 8) * 8 - sh = 8 - sh % 8 ∧
    (sh + 7) / 8 = sh / 8 + 1 ∧
    (∀ pix₂ : Nat → RGBA,
      (∀ y, y < sh → pix (pixIndex gw bx by_ y ix) =
        pix₂ (pixIndex gw bx by_ y ix)) →
      packPair pix gw bx by_ sh p ix shades shade =
      packPair pix₂ gw bx by_ sh p ix shades shade) := by
  have hbound := packStep_foldl_lt pix gw bx by_ sh p ix shades shade
    (sh % 8) (List.range 8) (0, 0)
    (fun iy hiy hlt => by
      have h8 := List.mem_range.mp hiy
      omega)
    (Nat.pos_pow_of_pos _ (by omega)) (Nat.pos_pow_of_pos _ (by omega))
  refine ⟨hbound.1, hbound.2, by omega, by omega, fun pix₂ hagree => ?_⟩
  exact packPair_congr pix pix₂ gw bx by_ sh p ix shades shade
    fun iy _ hlt => by rw [hagree (p * 8 + iy) hlt]; exact ⟨rfl, rfl⟩

/-- Witness for the last-page truncation theorem at `sh = 10`: the second page
    (`p = 1`) of an all-white column packs only rows 8 and 9, so the
    brightness byte is below `2 ^ 2 = 4` (bits 2..7 are 0). -/
theorem packPair_last_page_truncation_witness :
    (packPair (fun _ => ⟨255, 255, 255, 255⟩) 8 0 0 10 1 0 2 0).1 <
      2 ^ (10 % 8) :=
  (packPair_last_page_truncation (fun _ => ⟨255, 255, 255, 255⟩) 8 0 0 10 1 0 2 0
    (by decide) (by decide)).1

/-- One page's byte list is the interleaving (or first projection) of its
    packer pairs, according to the global mask flag. -/
lemma pageBytes_eq_pairs (pix : Nat → RGBA)
    (gw bx by_ sh p shades shade sw : Nat) (masked : Bool) :
    pageBytes pix gw bx by_ sh p shades shade sw masked =
      if masked then
        (pagePairs pix gw bx by_ sh p shades shade sw).flatMap
          fun bm => [bm.1, bm.2]
      else (pagePairs pix gw bx by_ sh p shades shade sw).map Prod.fst := by
  unfold pageBytes pagePairs
  cases masked with
  | true => simp [List.flatMap_map]
  | false =>
    simp only [Bool.false_eq_true, if_false, List.map_map]
    rw [List.map_eq_flatMap]
    simp [Function.comp]

/-- One frame's byte list is the interleaving (or first projection) of its
    packer pairs. -/
lemma frameBytes_eq_pairs (pix : Nat → RGBA)
    (gw bx by_ sh sp shades sw : Nat) (masked : Bool) :
    frameBytes pix gw bx by_ sh sp shades sw masked =
      if masked then
        (framePairs pix gw bx by_ sh sp shades sw).flatMap
          fun bm => [bm.1, bm.2]
      else (framePairs pix gw bx by_ sh sp shades sw).map Prod.fst := by
  unfold frameBytes framePairs
  cases masked with
  | true =>
    simp only [if_true]
    rw [List.flatMap_assoc]
    refine flatMap_range_congr _ _ _ fun shade _ => ?_
    rw [List.flatMap_assoc]
    refine flatMap_range_congr _ _ _ fun p _ => ?_
    simpa using pageBytes_eq_pairs pix gw bx by_ sh p shades shade sw true
  | false =>
    simp only [Bool.false_eq_true, if_false]
    rw [List.map_flatMap]
    refine flatMap_range_congr _ _ _ fun shade _ => ?_
    rw [List.map_flatMap]
    refine flatMap_range_congr _ _ _ fun p _ => ?_
    simpa using pageBytes_eq_pairs pix gw bx by_ sh p shades shade sw false

/-- The whole frame-data region is the interleaving (or first projection) of
    the stream's packer pairs. -/
lemma streamBytes_eq_pairs (pix : Nat → RGBA)
    (gw sh sp shades sw nw num : Nat) (masked : Bool) :
    ((List.range num).flatMap fun n =>
      frameBytes pix gw ((n % nw) * sw) ((n / nw) * sh) sh sp shades sw
        masked) =
      if masked then
        (streamPairs pix gw sh sp shades sw nw num).flatMap
          fun bm => [bm.1, bm.2]
      else (streamPairs pix gw sh sp shades sw nw num).map Prod.fst := by
  unfold streamPairs
  cases masked with
  | true =>
    simp only [if_true]
    rw [List.flatMap_assoc]
    refine flatMap_range_congr _ _ _ fun n _ => ?_
    simpa using frameBytes_eq_pairs pix gw ((n % nw) * sw) ((n / nw) * sh)
      sh sp shades sw true
  | false =>
    simp only [Bool.false_eq_true, if_false]
    rw [List.map_flatMap]
    refine flatMap_range_congr _ _ _ fun n _ => ?_
    simpa using frameBytes_eq_pairs pix gw ((n % nw) * sw) ((n / nw) * sh)
      sh sp shades sw false

/-- Whatever byte stream `convert` returns is the header followed by the
    frame blocks of `List.range num` in order. -/
lemma convert_ok_elim (pixels : List RGBA) (w h shades sw sh : Nat)
    (num? : Option Nat) (s : List Nat)
    (hok : convert pixels w h shades (some sw) (some sh) num? = .ok s) :
    s = [sw, sh] ++
      (List.range (num?.getD ((w / sw) * (h / sh)))).flatMap fun n =>
        frameBytes (fun i => pixels.getD i ⟨0, 0, 0, 0⟩) w
          ((n % (w / sw)) * sw) ((n / (w / sw)) * sh) sh ((sh + 7) / 8)
          shades sw (pixels.any fun i => i.a < 255) := by
  simp only [convert, Option.getD_some] at hok
  split_ifs at hok
  simp_all

/-- A valid invocation takes the success path of `convert` and returns the
    header followed by all frame blocks. -/
lemma convert_ok_of_valid (pixels : List RGBA) (w h shades sw sh : Nat)
    (num? : Option Nat)
    (hs : 2 ≤ shades ∧ shades ≤ 4) (hgeo : (w / sw) * (h / sh) ≠ 0)
    (hsw : sw ≤ 255) (hsh : sh ≤ 255) :
    convert pixels w h shades (some sw) (some sh) num? = .ok ([sw, sh] ++
      (List.range (num?.getD ((w / sw) * (h / sh)))).flatMap fun n =>
        frameBytes (fun i => pixels.getD i ⟨0, 0, 0, 0⟩) w
          ((n % (w / sw)) * sw) ((n / (w / sw)) * sh) sh ((sh + 7) / 8)
          shades sw (pixels.any fun i => i.a < 255)) := by
  have hsw0 : sw ≠ 0 := fun e => hgeo (by simp [e])
  have hsh0 : sh ≠ 0 := fun e => hgeo (by simp [e])
  simp only [convert, Option.getD_some]
  rw [if_neg (not_not_intro hs), if_neg (by omega), if_neg hgeo,
    if_neg (by omega)]

/-- C4: the mask flag is global and uniform.  Any byte stream `convert`
    returns is the 2-byte header followed by, when some pixel of the grid
    has alpha below 255, the packer pairs with every brightness byte
    immediately followed by its mask byte, and otherwise the brightness
    bytes alone, with no mask byte anywhere — the shape depends only on the
    whole-grid scan, never on the frame, plane, page or column. -/
theorem convert_mask_interleaving (pixels : List RGBA) (w h shades sw sh : Nat)
    (num? : Option Nat) (s : List Nat)
    (hok : convert pixels w h shades (some sw) (some sh) num? = .ok s) :
    s = [sw, sh] ++
      (if pixels.any fun i => i.a < 255 then
        (streamPairs (fun i => pixels.getD i ⟨0, 0, 0, 0⟩) w sh ((sh + 7) / 8)
          shades sw (w / sw) (num?.getD ((w / sw) * (h / sh)))).flatMap
          fun bm => [bm.1, bm.2]
      else
        (streamPairs (fun i => pixels.getD i ⟨0, 0, 0, 0⟩) w sh ((sh + 7) / 8)
          shades sw (w / sw) (num?.getD ((w / sw) * (h / sh)))).map
          Prod.fst) := by
  rw [convert_ok_elim pixels w h shades sw sh num? s hok,
    streamBytes_eq_pairs]

/-- Witness for the mask-interleaving theorem: a 1×1 image with one
    translucent pixel (alpha 200) encodes to header `[1,1]`, brightness
    byte 0, mask byte 1. -/
theorem convert_mask_interleaving_witness :
    ([1, 1, 0, 1] : List Nat) = [1, 1] ++
      (if [(⟨0, 0, 0, 200⟩ : RGBA)].any fun i => i.a < 255 then
        (streamPairs (fun i => [(⟨0, 0, 0, 200⟩ : RGBA)].getD i ⟨0, 0, 0, 0⟩)
          1 1 ((1 + 7) / 8) 2 1 (1 / 1)
          ((none : Option Nat).getD ((1 / 1) * (1 / 1)))).flatMap
          fun bm => [bm.1, bm.2]
      else
        (streamPairs (fun i => [(⟨0, 0, 0, 200⟩ : RGBA)].getD i ⟨0, 0, 0, 0⟩)
          1 1 ((1 + 7) / 8) 2 1 (1 / 1)
          ((none : Option Nat).getD ((1 / 1) * (1 / 1)))).map Prod.fst) :=
  convert_mask_interleaving [⟨0, 0, 0, 200⟩] 1 1 2 1 1 none [1, 1, 0, 1]
    (by rfl)

/-- Length of one page's byte list. -/
lemma pageBytes_length (pix : Nat → RGBA)
    (gw bx by_ sh p shades shade sw : Nat) (masked : Bool) :
    (pageBytes pix gw bx by_ sh p shades shade sw masked).length =
      sw * (if masked then 2 else 1) := by
  unfold pageBytes
  refine flatMap_range_length_const sw _ _ fun ix _ => ?_
  cases masked <;> simp

/-- Length of one frame's byte list. -/
lemma frameBytes_length (pix : Nat → RGBA)
    (gw bx by_ sh sp shades sw : Nat) (masked : Bool) :
    (frameBytes pix gw bx by_ sh sp shades sw masked).length =
      (shades - 1) * (sp * (sw * (if masked then 2 else 1))) := by
  unfold frameBytes
  refine flatMap_range_length_const _ _ _ fun shade _ => ?_
  refine flatMap_range_length_const _ _ _ fun p _ => ?_
  exact pageBytes_length pix gw bx by_ sh p shades shade sw masked

/-- C2: for every valid invocation, the returned stream has exactly
    `2 + num * (shades-1) * ceil(sh/8) * sw * (1 + maskFlag)` bytes, where
    the mask flag is 1 iff some pixel of the grid has alpha below 255. -/
theorem convert_output_length (pixels : List RGBA)
    (w h shades sw sh num : Nat)
    (hs : 2 ≤ shades ∧ shades ≤ 4)
    (hgeo : (w / sw) * (h / sh) ≠ 0)
    (_hnum : num ≤ (w / sw) * (h / sh))
    (hsw : sw ≤ 255) (hsh : sh ≤ 255)
    (_hlen : pixels.length = w * h) :
    ∃ s, convert pixels w h shades (some sw) (some sh) (some num) = .ok s ∧
      s.length = 2 + num * (shades - 1) * ((sh + 7) / 8) * sw *
        (1 + if pixels.any fun i => i.a < 255 then 1 else 0) := by
  refine ⟨_, convert_ok_of_valid pixels w h shades sw sh (some num) hs hgeo
    hsw hsh, ?_⟩
  rw [List.length_append,
    flatMap_range_length_const _
      ((shades - 1) * (((sh + 7) / 8) * (sw *
        (if pixels.any fun i => i.a < 255 then 2 else 1)))) _
      fun n _ => frameBytes_length _ w ((n % (w / sw)) * sw)
        ((n / (w / sw)) * sh) sh ((sh + 7) / 8) shades sw _]
  cases hm : pixels.any fun i => i.a < 255 <;> simp [hm] <;> ring

/-- Witness for the output-length theorem: a fully opaque 2×2 image,
    `shades = 2`, one 2×2 frame, gives a 4-byte stream. -/
theorem convert_output_length_witness :
    ∃ s, convert (List.replicate 4 ⟨0, 0, 0, 255⟩) 2 2 2 (some 2) (some 2)
        (some 1) = .ok s ∧
      s.length = 2 + 1 * (2 - 1) * ((2 + 7) / 8) * 2 *
        (1 + if (List.replicate 4 (⟨0, 0, 0, 255⟩ : RGBA)).any
          fun i => i.a < 255 then 1 else 0) :=
  convert_output_length (List.replicate 4 ⟨0, 0, 0, 255⟩) 2 2 2 2 2 1
    ⟨by decide, by decide⟩ (by decide) (by decide) (by decide) (by decide)
    (by decide)

/-- C5: any byte stream `convert` returns is the header followed by the
    frame blocks at the origins of the spec's Frame Slicer —
    `bx = (n % nw) * sw`, `by = (n / nw) * sh` in row-major raster order —
    and each frame block reads only pixels of its own tile: two pixel
    sources that agree on the rectangle `[bx, bx+sw) × [by, by+sh)` produce
    the same block. -/
theorem convert_frame_slicing (pixels : List RGBA) (w h shades sw sh : Nat)
    (num? : Option Nat) (s : List Nat)
    (hok : convert pixels w h shades (some sw) (some sh) num? = .ok s) :
    (s = [sw, sh] ++
      (sliceFramesSpec (w / sw) sw sh
        (num?.getD ((w / sw) * (h / sh)))).flatMap fun o =>
        frameBytes (fun i => pixels.getD i ⟨0, 0, 0, 0⟩) w o.1 o.2 sh
          ((sh + 7) / 8) shades sw (pixels.any fun i => i.a < 255))
    ∧ (∀ (bx by_ : Nat) (pix₁ pix₂ : Nat → RGBA) (masked : Bool),
        (∀ ix y, ix < sw → y < sh →
          pix₁ (pixIndex w bx by_ y ix) = pix₂ (pixIndex w bx by_ y ix)) →
        frameBytes pix₁ w bx by_ sh ((sh + 7) / 8) shades sw masked =
        frameBytes pix₂ w bx by_ sh ((sh + 7) / 8) shades sw masked) := by
  constructor
  · rw [convert_ok_elim pixels w h shades sw sh num? s hok,
      sliceFramesSpec, List.flatMap_map]
  · intro bx by_ pix₁ pix₂ masked hagree
    exact frameBytes_congr pix₁ pix₂ w bx by_ sh ((sh + 7) / 8) shades sw
      masked fun ix hix y hy => by rw [hagree ix y hix hy]; exact ⟨rfl, rfl⟩

/-- Witness for the frame-slicing theorem: an all-white 2×2 image cut into
    four 1×1 frames; the stream is the header and the four tile bytes in
    row-major order. -/
theorem convert_frame_slicing_witness :
    ([1, 1, 1, 1, 1, 1] : List Nat) = [1, 1] ++
      (sliceFramesSpec (2 / 1) 1 1
        ((none : Option Nat).getD ((2 / 1) * (2 / 1)))).flatMap fun o =>
        frameBytes
          (fun i => (List.replicate 4 (⟨255, 255, 255, 255⟩ : RGBA)).getD i
            ⟨0, 0, 0, 0⟩) 2 o.1 o.2 1 ((1 + 7) / 8) 2 1
          ((List.replicate 4 (⟨255, 255, 255, 255⟩ : RGBA)).any
            fun i => i.a < 255) :=
  (convert_frame_slicing (List.replicate 4 ⟨255, 255, 255, 255⟩) 2 2 2 1 1
    none [1, 1, 1, 1, 1, 1] (by rfl)).1

/-- C8: under a valid invocation (`shades ∈ {2,3,4}`, `nw*nh > 0`,
    `num ≤ nw*nh`), every pixel index the packing loop computes — `pixIndex`
    at a frame origin `((n % nw) * sw, (n / nw) * sh)` with `n < num`, a row
    `y < sh` actually accumulated, and a column `ix < sw` — lies inside the
    pixel grid `[0, w*h)`. -/
theorem pixIndex_in_bounds (w h shades sw sh num n y ix : Nat)
    (_hs : 2 ≤ shades ∧ shades ≤ 4)
    (hgeo : 0 < (w / sw) * (h / sh))
    (hnum : num ≤ (w / sw) * (h / sh))
    (hn : n < num) (hy : y < sh) (hix : ix < sw) :
    pixIndex w ((n % (w / sw)) * sw) ((n / (w / sw)) * sh) y ix < w * h := by
  set nw := w / sw with hnw
  set nh := h / sh with hnh
  have hnw0 : 0 < nw := by
    rcases Nat.eq_zero_or_pos nw with h0 | h0
    · rw [h0, Nat.zero_mul] at hgeo
      exact absurd hgeo (lt_irrefl 0)
    · exact h0
  have hnh0 : 0 < nh := by
    rcases Nat.eq_zero_or_pos nh with h0 | h0
    · rw [h0, Nat.mul_zero] at hgeo
      exact absurd hgeo (lt_irrefl 0)
    · exact h0
  have hmod : n % nw < nw := Nat.mod_lt _ hnw0
  have hdiv : n / nw < nh := by
    rw [Nat.div_lt_iff_lt_mul hnw0]
    calc n < num := hn
      _ ≤ nw * nh := hnum
      _ = nh * nw := Nat.mul_comm _ _
  have hx : (n % nw) * sw + ix < w := by
    calc (n % nw) * sw + ix < (n % nw) * sw + sw := by omega
      _ = (n % nw + 1) * sw := by ring
      _ ≤ nw * sw := Nat.mul_le_mul_right _ (by omega)
      _ ≤ w := Nat.div_mul_le_self w sw
  have hrow : y + (n / nw) * sh < h := by
    calc y + (n / nw) * sh < sh + (n / nw) * sh := by omega
      _ = (n / nw + 1) * sh := by ring
      _ ≤ nh * sh := Nat.mul_le_mul_right _ (by omega)
      _ ≤ h := Nat.div_mul_le_self h sh
  unfold pixIndex
  calc (y + (n / nw) * sh) * w + ((n % nw) * sw + ix)
      < (y + (n / nw) * sh) * w + w := by omega
    _ = (y + (n / nw) * sh + 1) * w := by ring
    _ ≤ h * w := Nat.mul_le_mul_right _ (by omega)
    _ = w * h := Nat.mul_comm _ _

/-- Witness for the in-bounds theorem: a 16×16 image, 8×8 frames, the last
    row and column of the last frame. -/
theorem pixIndex_in_bounds_witness :
    pixIndex 16 ((3 % (16 / 8)) * 8) ((3 / (16 / 8)) * 8) 7 7 < 16 * 16 :=
  pixIndex_in_bounds 16 16 2 8 8 4 3 7 7 ⟨by decide, by decide⟩ (by decide)
    (by decide) (by decide) (by decide) (by decide)

/-- The whole-grid transparency scan reads only the alpha channels. -/
lemma any_alpha_congr :
    ∀ (l₁ l₂ : List RGBA), l₁.length = l₂.length →
      (∀ i, i < l₁.length →
        (l₁.getD i ⟨0, 0, 0, 0⟩).a = (l₂.getD i ⟨0, 0, 0, 0⟩).a) →
      (l₁.any fun i => i.a < 255) = (l₂.any fun i => i.a < 255) := by
  intro l₁
  induction l₁ with
  | nil =>
    intro l₂ hlen _
    cases l₂ with
    | nil => rfl
    | cons y t₂ => simp at hlen
  | cons x t ih =>
    intro l₂ hlen h
    cases l₂ with
    | nil => simp at hlen
    | cons y t₂ =>
      simp only [List.any_cons]
      have h0 : x.a = y.a := by simpa using h 0 (by simp)
      rw [h0, ih t₂ (by simpa using hlen)
        fun i hi => by simpa using h (i + 1) (by simpa using hi)]

/-- C10: the output depends only on the red and alpha channels: two pixel
    grids of the same length that agree pixelwise in R and A (G and B may
    differ arbitrarily) encode to identical results for every choice of
    `shades`, `sw`, `sh`, `num`. -/
theorem convert_r_a_only (pixels₁ pixels₂ : List RGBA) (w h shades : Nat)
    (sw? sh? num? : Option Nat)
    (hlen : pixels₁.length = pixels₂.length)
    (hra : ∀ i, i < pixels₁.length →
      (pixels₁.getD i ⟨0, 0, 0, 0⟩).r = (pixels₂.getD i ⟨0, 0, 0, 0⟩).r ∧
      (pixels₁.getD i ⟨0, 0, 0, 0⟩).a = (pixels₂.getD i ⟨0, 0, 0, 0⟩).a) :
    convert pixels₁ w h shades sw? sh? num? =
    convert pixels₂ w h shades sw? sh? num? := by
  have hmask : (pixels₁.any fun i => i.a < 255) =
      (pixels₂.any fun i => i.a < 255) :=
    any_alpha_congr pixels₁ pixels₂ hlen fun i hi => (hra i hi).2
  have hra' : ∀ i,
      (pixels₁.getD i ⟨0, 0, 0, 0⟩).r = (pixels₂.getD i ⟨0, 0, 0, 0⟩).r ∧
      (pixels₁.getD i ⟨0, 0, 0, 0⟩).a = (pixels₂.getD i ⟨0, 0, 0, 0⟩).a := by
    intro i
    by_cases hi : i < pixels₁.length
    · exact hra i hi
    · push_neg at hi
      rw [List.getD_eq_default _ _ hi, List.getD_eq_default _ _ (hlen ▸ hi)]
      exact ⟨rfl, rfl⟩
  simp only [convert, hmask]
  split
  · rfl
  · split
    · rfl
    · split
      · rfl
      · split
        · rfl
        · have hdata :
              ((List.range ((Option.getD num?
                  (w / sw?.getD w * (h / sh?.getD h))))).flatMap fun n =>
                frameBytes (fun i => pixels₁.getD i ⟨0, 0, 0, 0⟩) w
                  ((n % (w / sw?.getD w)) * sw?.getD w)
                  ((n / (w / sw?.getD w)) * sh?.getD h) (sh?.getD h)
                  ((sh?.getD h + 7) / 8) shades (sw?.getD w)
                  (pixels₂.any fun i => i.a < 255)) =
              ((List.range ((Option.getD num?
                  (w / sw?.getD w * (h / sh?.getD h))))).flatMap fun n =>
                frameBytes (fun i => pixels₂.getD i ⟨0, 0, 0, 0⟩) w
                  ((n % (w / sw?.getD w)) * sw?.getD w)
                  ((n / (w / sw?.getD w)) * sh?.getD h) (sh?.getD h)
                  ((sh?.getD h + 7) / 8) shades (sw?.getD w)
                  (pixels₂.any fun i => i.a < 255)) := by
            refine flatMap_range_congr _ _ _ fun n _ => ?_
            exact frameBytes_congr _ _ _ _ _ _ _ _ _ _
              fun ix _ y _ => hra' _
          rw [hdata]

/-- Witness for the R/A-dependence theorem: two 1×1 grids differing only in
    green and blue encode identically. -/
theorem convert_r_a_only_witness :
    convert [⟨5, 0, 0, 255⟩] 1 1 2 none none none =
    convert [⟨5, 9, 9, 255⟩] 1 1 2 none none none :=
  convert_r_a_only [⟨5, 0, 0, 255⟩] [⟨5, 9, 9, 255⟩] 1 1 2 none none none
    rfl (by decide)

/-- C6 counterexample: with `sw = 0` (the claim's own example of invalid
    geometry) the source raises an uncaught `ZeroDivisionError` at
    `nw = w // sw`, so the caller gets a crash, not the reported
    invalid-sprite-dimensions failure (printed message plus `None`). -/
theorem convert_c6_counterexample :
    convert (List.replicate 4 ⟨0, 0, 0, 255⟩) 2 2 2 (some 0) (some 2) none =
      .error .zeroDivisionError ∧
    ConvertError.zeroDivisionError ≠ ConvertError.invalidSpriteDimensions :=
  ⟨rfl, by decide⟩

/-- C6 (amended): whenever the derived frame grid is empty
    (`nw * nh = 0`), `convert` never returns a byte stream — no partial
    output exists; with valid `shades` and nonzero `sw`, `sh` it reports the
    invalid-sprite-dimensions failure, while a zero `sw` or `sh` instead
    raises `ZeroDivisionError` before the check is reached. -/
theorem convert_invalid_geometry (pixels : List RGBA) (w h shades sw sh : Nat)
    (num? : Option Nat) (hgeo : (w / sw) * (h / sh) = 0) :
    (∀ s, convert pixels w h shades (some sw) (some sh) num? ≠ .ok s)
    ∧ (2 ≤ shades → shades ≤ 4 → 1 ≤ sw → 1 ≤ sh →
        convert pixels w h shades (some sw) (some sh) num? =
          .error .invalidSpriteDimensions)
    ∧ (2 ≤ shades → shades ≤ 4 → sw = 0 ∨ sh = 0 →
        convert pixels w h shades (some sw) (some sh) num? =
          .error .zeroDivisionError) := by
  refine ⟨?_, ?_, ?_⟩
  · intro s hok
    simp only [convert, Option.getD_some] at hok
    split_ifs at hok
  · intro h2 h4 hsw hsh
    simp only [convert, Option.getD_some]
    rw [if_neg (not_not_intro ⟨h2, h4⟩), if_neg (by omega), if_pos hgeo]
  · intro h2 h4 hzero
    simp only [convert, Option.getD_some]
    rw [if_neg (not_not_intro ⟨h2, h4⟩), if_pos hzero]

/-- Witness for the invalid-geometry theorem: an 8-pixel-wide frame
    requested from a 2-pixel-wide image. -/
theorem convert_invalid_geometry_witness :
    convert (List.replicate 4 ⟨0, 0, 0, 255⟩) 2 2 2 (some 8) (some 2) none =
      .error .invalidSpriteDimensions :=
  (convert_invalid_geometry (List.replicate 4 ⟨0, 0, 0, 255⟩) 2 2 2 8 2 none
    (by decide)).2.1 (by decide) (by decide) (by decide) (by decide)

/-- C7: with `sw > 255` or `sh > 255` the conversion never yields a byte
    stream (`bytearray([sw, sh])` raises `ValueError`), so no stream with a
    silently truncated header is ever produced; when the earlier checks pass
    (valid `shades`, nonempty frame grid) the failure reported is exactly
    the header overflow. -/
theorem convert_header_overflow (pixels : List RGBA) (w h shades sw sh : Nat)
    (num? : Option Nat) (hover : 255 < sw ∨ 255 < sh) :
    (∀ s, convert pixels w h shades (some sw) (some sh) num? ≠ .ok s)
    ∧ (2 ≤ shades → shades ≤ 4 → (w / sw) * (h / sh) ≠ 0 →
        convert pixels w h shades (some sw) (some sh) num? =
          .error .headerOverflow) := by
  refine ⟨?_, ?_⟩
  · intro s hok
    simp only [convert, Option.getD_some] at hok
    split_ifs at hok
  · intro h2 h4 hgeo
    have hsw0 : sw ≠ 0 := fun e => hgeo (by simp [e])
    have hsh0 : sh ≠ 0 := fun e => hgeo (by simp [e])
    simp only [convert, Option.getD_some]
    rw [if_neg (not_not_intro ⟨h2, h4⟩), if_neg (by omega), if_neg hgeo,
      if_pos hover]

/-- Witness for the header-overflow theorem: a 300-wide frame on a 300-wide
    image fails with the header overflow. -/
theorem convert_header_overflow_witness :
    convert [] 300 8 2 (some 300) (some 8) none = .error .headerOverflow :=
  (convert_header_overflow [] 300 8 2 300 8 none (by decide)).2 (by decide)
    (by decide) (by decide)
